import Mathlib

/-!
Shallow embedding of `scripts/iso3166.py`, the single source file of the
repository: a code generator that reads a JSON list of country records,
projects each record to an `(alpha-2, name)` pair, sorts the pairs by code
with Python's stable `sorted`, and prints a Rust array literal to standard
output.

The main model works over records whose field values are strings (the shape
of a valid dataset).  A second model (`JValue`, `gen_cc_j` below) covers
arbitrary JSON field values, following Python's dynamic semantics for
`str()` formatting and for the comparisons performed by `sorted`.
-/

/-- A parsed JSON object with string values, as an association list.
`json.loads` produces a `dict`: keys are unique (a repeated key in the
source text keeps only the last binding) and insertion order is preserved.
`List.lookup` on such a list is exactly `dict.__getitem__`'s result when
the key is present. -/
abbrev Record := List (String × String)

/-- The error a run of `gen_cc` can raise after the dataset was loaded:
`elem["alpha-2"]` or `elem["name"]` raises `KeyError(key)` when the record
lacks the key. -/
inductive GenError where
  | keyError (key : String)
deriving DecidableEq

/-- `rec[key]`: dictionary access, raising `KeyError` when absent. -/
def getField (rec : Record) (key : String) : Except GenError String :=
  match rec.lookup key with
  | some v => .ok v
  | none => .error (.keyError key)

/-- The body of the `lambda elem: (elem["alpha-2"], elem["name"])` passed to
`map`: `elem["alpha-2"]` is evaluated first, so its `KeyError` wins when
both keys are absent. -/
def projectRecord (rec : Record) : Except GenError (String × String) := do
  let code ← getField rec "alpha-2"
  let name ← getField rec "name"
  pure (code, name)

/-- `list(map(lambda elem: (elem["alpha-2"], elem["name"]), data))`:
projects the records in order; the first `KeyError` aborts the whole run. -/
def projectAll : List Record → Except GenError (List (String × String))
  | [] => .ok []
  | rec :: rest => do
    let item ← projectRecord rec
    let items ← projectAll rest
    pure (item :: items)

/-- The comparison underlying `sorted(items, key=lambda item: item[0])`:
only the first component is compared.  Python compares strings
lexicographically by code point, which is the lexicographic order on the
underlying character lists (`String.le_iff_toList_le`); it coincides with
byte-wise UTF-8 order.  Stated on `.data` so that it evaluates. -/
def codeLe (a b : String × String) : Bool := decide (a.1.data ≤ b.1.data)

/-- `sorted(items, key=lambda item: item[0])`.  Python's `sorted` is a
stable sort ascending in the key; on a totally ordered key every stable
sort returns the same list, so the stable `List.mergeSort` is an exact
model of its output. -/
def sortItems (items : List (String × String)) : List (String × String) :=
  items.mergeSort codeLe

/-- One rendered entry, `"(\"%s\", \"%s\"), " % item`.  `%s` of a Python
string is the string itself, substituted with no escaping. -/
def entry (item : String × String) : String :=
  "(\"" ++ item.1 ++ "\", \"" ++ item.2 ++ "\"), "

/-- The per-index pieces appended to `body` by the loop
`for i in range(len(items))`: the guard `if i % 1 == 0` prepends the
newline-plus-indent before every entry it fires for. -/
def bodyParts (items : List (String × String)) : List String :=
  items.enum.map (fun p => (if p.1 % 1 == 0 then "\n    " else "") ++ entry p.2)

/-- The final value of `body`: the loop's appends (starting from `""`),
then the trailing `body += "\n"`. -/
def renderBody (items : List (String × String)) : String :=
  String.join (bodyParts items) ++ "\n"

/-- The value of `code`:
`"\npub static COUNTRY_CODES: [(&'static str, &'static str); %d] = [%s];\n" % (len(items), body)`. -/
def renderLiteral (items : List (String × String)) : String :=
  "\npub static COUNTRY_CODES: [(&'static str, &'static str); "
    ++ toString items.length ++ "] = [" ++ renderBody items ++ "];\n"

/-- `gen_cc` on an already-loaded dataset, returning the exact text written
to standard output (`print(code)` appends one more newline). -/
def gen_cc (data : List Record) : Except GenError String := do
  let items ← projectAll data
  pure (renderLiteral (sortItems items) ++ "\n")

/-- Failure of `open(...)`/`json.loads`: file missing, unreadable, or not
valid JSON.  The spec calls this DataLoadError. -/
inductive LoadError where
  | dataLoadError
deriving DecidableEq

/-- A whole invocation of the script, as (bytes written to standard output,
exit status).  An uncaught Python exception — load failure or `KeyError` —
terminates the process with status 1 before `print` runs, so nothing is
written; on success the full literal is printed and the process exits 0. -/
def runGen (load : Except LoadError (List Record)) : String × Nat :=
  match load with
  | .error _ => ("", 1)
  | .ok data =>
    match gen_cc data with
    | .error _ => ("", 1)
    | .ok out => (out, 0)

/-- A record carries both required keys. -/
def HasRequiredKeys (rec : Record) : Prop :=
  (rec.lookup "alpha-2").isSome ∧ (rec.lookup "name").isSome

/-- A valid dataset: every record carries both required keys. -/
def ValidData (data : List Record) : Prop := ∀ rec ∈ data, HasRequiredKeys rec

/-- The pair a valid record projects to. -/
def projectValid (rec : Record) : String × String :=
  ((rec.lookup "alpha-2").getD "", (rec.lookup "name").getD "")

/-! Basic lemmas about projection. -/

theorem projectRecord_of_valid (rec : Record) (h : HasRequiredKeys rec) :
    projectRecord rec = .ok (projectValid rec) := by
  obtain ⟨h₁, h₂⟩ := h
  obtain ⟨c, hc⟩ := Option.isSome_iff_exists.mp h₁
  obtain ⟨n, hn⟩ := Option.isSome_iff_exists.mp h₂
  simp [projectRecord, getField, projectValid, hc, hn, bind, Except.bind, pure, Except.pure]

theorem projectAll_of_valid (data : List Record) (h : ValidData data) :
    projectAll data = .ok (data.map projectValid) := by
  induction data with
  | nil => rfl
  | cons rec rest ih =>
    have hrec : HasRequiredKeys rec := h rec (List.mem_cons_self ..)
    have hrest : ValidData rest := fun r hr => h r (List.mem_cons_of_mem _ hr)
    simp [projectAll, projectRecord_of_valid rec hrec, ih hrest, bind, Except.bind, pure, Except.pure]

theorem validData_of_projectAll_ok (data : List Record)
    (items : List (String × String)) (h : projectAll data = .ok items) :
    ValidData data ∧ items = data.map projectValid := by
  induction data generalizing items with
  | nil =>
    simp only [projectAll] at h
    cases h
    exact ⟨fun r hr => absurd hr (List.not_mem_nil r), rfl⟩
  | cons rec rest ih =>
    simp only [projectAll, bind, Except.bind, pure, Except.pure] at h
    cases hp : projectRecord rec with
    | error e => rw [hp] at h; cases h
    | ok item =>
      rw [hp] at h
      cases hq : projectAll rest with
      | error e => rw [hq] at h; cases h
      | ok tail =>
        rw [hq] at h
        cases h
        obtain ⟨hv, htail⟩ := ih tail hq
        have hkeys : HasRequiredKeys rec := by
          simp only [projectRecord, getField, bind, Except.bind, pure, Except.pure] at hp
          cases h₁ : rec.lookup "alpha-2" with
          | none => rw [h₁] at hp; cases hp
          | some c =>
            rw [h₁] at hp
            cases h₂ : rec.lookup "name" with
            | none => rw [h₂] at hp; cases hp
            | some n => exact ⟨by simp [h₁], by simp [h₂]⟩
        have hitem : item = projectValid rec := by
          rw [projectRecord_of_valid rec hkeys] at hp
          cases hp; rfl
        refine ⟨fun r hr => ?_, by rw [htail, hitem]; rfl⟩
        rcases List.mem_cons.mp hr with h | h
        · exact h ▸ hkeys
        · exact hv r h

theorem length_map_projectValid (data : List Record) :
    (data.map projectValid).length = data.length := List.length_map ..

/-! Properties of the code comparison and of the stable sort. -/

theorem codeLe_trans (a b c : String × String) (hab : codeLe a b) (hbc : codeLe b c) :
    codeLe a c := by
  simp only [codeLe, decide_eq_true_eq] at *
  exact le_trans hab hbc

theorem codeLe_total (a b : String × String) : codeLe a b || codeLe b a := by
  simp only [codeLe, Bool.or_eq_true, decide_eq_true_eq]
  exact le_total a.1.data b.1.data

theorem foldl_append_shift (l : List String) (s : String) :
    l.foldl (fun r t => r ++ t) s = s ++ l.foldl (fun r t => r ++ t) "" := by
  induction l generalizing s with
  | nil => simp
  | cons x xs ih =>
    simp only [List.foldl_cons]
    rw [ih (s ++ x), ih ("" ++ x), String.empty_append, String.append_assoc]

theorem join_cons (s : String) (l : List String) :
    String.join (s :: l) = s ++ String.join l := by
  simp only [String.join, List.foldl_cons]
  rw [foldl_append_shift l ("" ++ s), String.empty_append]

theorem join_append (l₁ l₂ : List String) :
    String.join (l₁ ++ l₂) = String.join l₁ ++ String.join l₂ := by
  induction l₁ with
  | nil => simp [String.join]
  | cons x xs ih => rw [List.cons_append, join_cons, join_cons, ih, String.append_assoc]

/-- The loop guard `i % 1 == 0` is true at every index, so every entry is
preceded by newline-plus-four-spaces: one entry per line. -/
theorem bodyParts_eq (items : List (String × String)) :
    bodyParts items = items.map (fun it => "\n    " ++ entry it) := by
  unfold bodyParts
  have hg : (fun p : Nat × (String × String) =>
      (if p.1 % 1 == 0 then "\n    " else "") ++ entry p.2)
      = (fun it : String × String => "\n    " ++ entry it) ∘ Prod.snd := by
    funext p; simp [Nat.mod_one]
  rw [hg, ← List.map_map, List.enum_map_snd]

theorem renderBody_eq (items : List (String × String)) :
    renderBody items
      = String.join (items.map fun it => "\n    " ++ entry it) ++ "\n" := by
  rw [renderBody, bodyParts_eq]

theorem sortItems_perm (items : List (String × String)) :
    (sortItems items).Perm items := List.mergeSort_perm items codeLe

theorem sortItems_length (items : List (String × String)) :
    (sortItems items).length = items.length := (sortItems_perm items).length_eq

theorem sortItems_sorted (items : List (String × String)) :
    (sortItems items).Pairwise (fun a b => a.1 ≤ b.1) := by
  have h := List.sorted_mergeSort codeLe_trans codeLe_total items
  exact h.imp (fun hab => String.le_iff_toList_le.mpr (of_decide_eq_true hab))

/-- Stability of the sort, phrased on sort keys: the entries carrying any
fixed code appear in the output in exactly their input order. -/
theorem sortItems_stable (items : List (String × String)) (c : String) :
    (sortItems items).filter (fun it => it.1 == c)
      = items.filter (fun it => it.1 == c) := by
  set p : (String × String) → Bool := fun it => it.1 == c with hp
  have hfsub : List.Sublist (items.filter p) items := List.filter_sublist items
  have hpair : (items.filter p).Pairwise (fun a b => codeLe a b) := by
    apply List.pairwise_of_forall_mem_list
    intro a ha b hb
    have ha' : a.1 = c := by simpa [hp] using (List.mem_filter.mp ha).2
    have hb' : b.1 = c := by simpa [hp] using (List.mem_filter.mp hb).2
    simp [codeLe, ha', hb']
  have hsub : List.Sublist (items.filter p) (sortItems items) :=
    List.sublist_mergeSort codeLe_trans codeLe_total hpair hfsub
  have hself : (items.filter p).filter p = items.filter p :=
    List.filter_eq_self.mpr (fun a ha => (List.mem_filter.mp ha).2)
  have hsub' : List.Sublist (items.filter p) ((sortItems items).filter p) := hself ▸ hsub.filter p
  have hperm : ((sortItems items).filter p).Perm (items.filter p) :=
    (sortItems_perm items).filter p
  exact (hsub'.eq_of_length hperm.length_eq.symm).symm

instance decHasRequiredKeys (rec : Record) : Decidable (HasRequiredKeys rec) := by
  unfold HasRequiredKeys
  infer_instance

instance decValidData (data : List Record) : Decidable (ValidData data) := by
  unfold ValidData
  exact List.decidableBAll _ data

instance decEqExcept {ε α : Type} [DecidableEq ε] [DecidableEq α] :
    DecidableEq (Except ε α) := fun x y =>
  match x, y with
  | .ok a, .ok b =>
    if h : a = b then isTrue (by rw [h]) else isFalse (fun hc => by cases hc; exact h rfl)
  | .error e, .error f =>
    if h : e = f then isTrue (by rw [h]) else isFalse (fun hc => by cases hc; exact h rfl)
  | .ok _, .error _ => isFalse (fun hc => by cases hc)
  | .error _, .ok _ => isFalse (fun hc => by cases hc)

/-- The dataset of the spec's worked example:
`[{"alpha-2":"US","name":"United States"}, {"alpha-2":"AD","name":"Andorra"}]`. -/
def exampleData : List Record :=
  [[("alpha-2", "US"), ("name", "United States")],
   [("alpha-2", "AD"), ("name", "Andorra")]]

/-- C1: for every valid dataset, the emitted array literal has exactly as
many (code, name) entries as there are input records, and the decimal count
printed in the declaration is that same number. -/
theorem gen_cc_cardinality (data : List Record) (h : ValidData data) :
    ∃ items : List (String × String),
      projectAll data = .ok items ∧
      items.length = data.length ∧
      (sortItems items).length = data.length ∧
      (bodyParts (sortItems items)).length = data.length ∧
      gen_cc data = .ok (renderLiteral (sortItems items) ++ "\n") ∧
      renderLiteral (sortItems items)
        = "\npub static COUNTRY_CODES: [(&'static str, &'static str); "
            ++ toString data.length ++ "] = ["
            ++ renderBody (sortItems items) ++ "];\n" := by
  refine ⟨data.map projectValid, projectAll_of_valid data h, List.length_map .., ?_, ?_, ?_, ?_⟩
  · rw [sortItems_length, List.length_map]
  · rw [bodyParts_eq, List.length_map, sortItems_length, List.length_map]
  · simp [gen_cc, projectAll_of_valid data h, bind, Except.bind, pure, Except.pure]
  · rw [renderLiteral, sortItems_length, List.length_map]

theorem gen_cc_cardinality_witness :
    ∃ items : List (String × String),
      projectAll exampleData = .ok items ∧
      items.length = exampleData.length ∧
      (sortItems items).length = exampleData.length ∧
      (bodyParts (sortItems items)).length = exampleData.length ∧
      gen_cc exampleData = .ok (renderLiteral (sortItems items) ++ "\n") ∧
      renderLiteral (sortItems items)
        = "\npub static COUNTRY_CODES: [(&'static str, &'static str); "
            ++ toString exampleData.length ++ "] = ["
            ++ renderBody (sortItems items) ++ "];\n" :=
  gen_cc_cardinality exampleData (by decide)

/-- C2: for every valid dataset the rendered pairs are a permutation of the
projected input pairs, sorted ascending by code, and stable: for each code,
the entries carrying it keep exactly their input order (so only the code
acts as the sort key). -/
theorem gen_cc_sorted_stable (data : List Record) (h : ValidData data) :
    ∃ items : List (String × String),
      projectAll data = .ok items ∧
      (sortItems items).Perm items ∧
      (sortItems items).Pairwise (fun a b => a.1 ≤ b.1) ∧
      ∀ c : String, (sortItems items).filter (fun it => it.1 == c)
        = items.filter (fun it => it.1 == c) :=
  ⟨data.map projectValid, projectAll_of_valid data h, sortItems_perm _,
    sortItems_sorted _, fun c => sortItems_stable _ c⟩

theorem gen_cc_sorted_stable_witness :
    ∃ items : List (String × String),
      projectAll exampleData = .ok items ∧
      (sortItems items).Perm items ∧
      (sortItems items).Pairwise (fun a b => a.1 ≤ b.1) ∧
      ∀ c : String, (sortItems items).filter (fun it => it.1 == c)
        = items.filter (fun it => it.1 == c) :=
  gen_cc_sorted_stable exampleData (by decide)

/-- C3: the text written to standard output is bit-exact: a blank line, the
declaration line opening the literal, one body line per entry — each body
line is four spaces and exactly one `("CODE", "Name"), ` entry, because the
grouping guard `i % 1 == 0` is always true — a trailing newline before the
closing bracket, and a blank line at the end (from `print`). -/
theorem gen_cc_output_format (data : List Record) (h : ValidData data) :
    ∃ items : List (String × String),
      projectAll data = .ok items ∧
      gen_cc data = .ok (
        "\npub static COUNTRY_CODES: [(&'static str, &'static str); "
          ++ toString data.length ++ "] = ["
          ++ String.join ((sortItems items).map fun it =>
               "\n    " ++ ("(\"" ++ it.1 ++ "\", \"" ++ it.2 ++ "\"), "))
          ++ "\n" ++ "];\n" ++ "\n") := by
  refine ⟨data.map projectValid, projectAll_of_valid data h, ?_⟩
  simp only [gen_cc, projectAll_of_valid data h, bind, Except.bind, pure, Except.pure,
    renderLiteral, renderBody_eq, entry, sortItems_length, List.length_map,
    String.append_assoc]

theorem gen_cc_output_format_witness :
    ∃ items : List (String × String),
      projectAll exampleData = .ok items ∧
      gen_cc exampleData = .ok (
        "\npub static COUNTRY_CODES: [(&'static str, &'static str); "
          ++ toString exampleData.length ++ "] = ["
          ++ String.join ((sortItems items).map fun it =>
               "\n    " ++ ("(\"" ++ it.1 ++ "\", \"" ++ it.2 ++ "\"), "))
          ++ "\n" ++ "];\n" ++ "\n") :=
  gen_cc_output_format exampleData (by decide)

theorem bodyParts_length (items : List (String × String)) :
    (bodyParts items).length = items.length := by
  rw [bodyParts_eq, List.length_map]

/-- C9: internal consistency of the emitted text — whenever `gen_cc`
succeeds, the decimal count in the declaration is exactly the decimal form
of the number of rendered entries present in the body; both are computed
from the same sorted list. -/
theorem gen_cc_internal_consistent (data : List Record) (out : String)
    (h : gen_cc data = .ok out) :
    ∃ items : List (String × String),
      projectAll data = .ok items ∧
      out = "\npub static COUNTRY_CODES: [(&'static str, &'static str); "
          ++ toString (bodyParts (sortItems items)).length ++ "] = ["
          ++ (String.join (bodyParts (sortItems items)) ++ "\n") ++ "];\n" ++ "\n" := by
  simp only [gen_cc, bind, Except.bind, pure, Except.pure] at h
  cases hp : projectAll data with
  | error e => rw [hp] at h; cases h
  | ok items =>
    rw [hp] at h
    cases h
    refine ⟨items, rfl, ?_⟩
    rw [bodyParts_length, renderLiteral, renderBody]

theorem gen_cc_internal_consistent_witness :
    ∃ items : List (String × String),
      projectAll exampleData = .ok items ∧
      "\npub static COUNTRY_CODES: [(&'static str, &'static str); 2] = [\n    (\"AD\", \"Andorra\"), \n    (\"US\", \"United States\"), \n];\n\n"
        = "\npub static COUNTRY_CODES: [(&'static str, &'static str); "
          ++ toString (bodyParts (sortItems items)).length ++ "] = ["
          ++ (String.join (bodyParts (sortItems items)) ++ "\n") ++ "];\n" ++ "\n" :=
  gen_cc_internal_consistent exampleData _ (by
    simp +decide [gen_cc, projectAll, projectRecord, getField, List.lookup, sortItems,
      List.mergeSort, List.merge, renderLiteral, renderBody, bodyParts, entry, bind,
      Except.bind, pure, Except.pure, String.join, exampleData])

/-- C6 counterexample: on the empty dataset the generator declares length 0
but the text between the brackets is a single newline character, not the
empty string, so the emitted literal is not the one with an empty body. -/
theorem gen_cc_empty_counterexample :
    gen_cc [] = .ok "\npub static COUNTRY_CODES: [(&'static str, &'static str); 0] = [\n];\n\n" ∧
    "\npub static COUNTRY_CODES: [(&'static str, &'static str); 0] = [\n];\n\n"
      ≠ "\npub static COUNTRY_CODES: [(&'static str, &'static str); 0] = [];\n\n" := by
  constructor
  · simp only [gen_cc, projectAll, sortItems, List.mergeSort_nil, renderLiteral,
      renderBody, bodyParts, List.enum_nil, List.map_nil, String.join, List.foldl_nil,
      bind, Except.bind, pure, Except.pure]
    decide
  · decide

/-- C6 (amended): the empty dataset produces a literal whose declared
length is 0 and whose body between the brackets consists of exactly one
newline character — the loop appends no entry and the unconditional
`body += "\n"` still runs. -/
theorem gen_cc_empty_amended :
    gen_cc [] = .ok ("\npub static COUNTRY_CODES: [(&'static str, &'static str); 0] = ["
      ++ "\n" ++ "];\n" ++ "\n") := by
  simp only [gen_cc, projectAll, sortItems, List.mergeSort_nil, renderLiteral,
      renderBody, bodyParts, List.enum_nil, List.map_nil, String.join, List.foldl_nil,
      bind, Except.bind, pure, Except.pure]
  decide

/-- C8: determinism — a run's output is a pure function of the loaded
dataset.  The script reads nothing but the dataset file (its path is a
constant), uses no randomness, clock or environment, and `map`, `sorted`
and string formatting are deterministic, so the embedding of a whole run is
a function and byte-identical inputs give byte-identical (output, status). -/
theorem runGen_deterministic (load₁ load₂ : Except LoadError (List Record))
    (h : load₁ = load₂) : runGen load₁ = runGen load₂ := by rw [h]

theorem runGen_deterministic_witness :
    runGen (.ok exampleData) = runGen (.ok exampleData) :=
  runGen_deterministic (.ok exampleData) (.ok exampleData) rfl

theorem gen_cc_error_of_invalid (data : List Record)
    (h : ∃ rec ∈ data, ¬ HasRequiredKeys rec) :
    ∃ e, gen_cc data = .error e := by
  cases hp : projectAll data with
  | error e =>
    exact ⟨e, by simp [gen_cc, hp, bind, Except.bind]⟩
  | ok items =>
    obtain ⟨rec, hrec, hbad⟩ := h
    exact absurd ((validData_of_projectAll_ok data items hp).1 rec hrec) hbad

/-- C4: all-or-nothing semantics of a whole run.  A load failure, and any
record missing a required key, terminate the run with exit status 1 having
written zero bytes to standard output (the uncaught exception is raised
before `print`); on a valid dataset the full literal is written and the
status is 0. -/
theorem runGen_all_or_nothing (load : Except LoadError (List Record)) :
    (∀ e, load = .error e → runGen load = ("", 1)) ∧
    (∀ data, load = .ok data → (∃ rec ∈ data, ¬ HasRequiredKeys rec) →
      runGen load = ("", 1)) ∧
    (∀ data, load = .ok data → ValidData data →
      runGen load = (renderLiteral (sortItems (data.map projectValid)) ++ "\n", 0)) := by
  refine ⟨fun e he => by rw [he]; rfl, fun data hd hbad => ?_, fun data hd hv => ?_⟩
  · obtain ⟨e, hge⟩ := gen_cc_error_of_invalid data hbad
    rw [hd]
    simp [runGen, hge]
  · rw [hd]
    simp [runGen, gen_cc, projectAll_of_valid data hv, bind, Except.bind, pure, Except.pure]

theorem runGen_all_or_nothing_witness :
    runGen (.error .dataLoadError) = ("", 1) ∧
    runGen (.ok [[("name", "NoCode")]]) = ("", 1) :=
  ⟨(runGen_all_or_nothing (.error .dataLoadError)).1 .dataLoadError rfl,
   (runGen_all_or_nothing (.ok [[("name", "NoCode")]])).2.1 [[("name", "NoCode")]] rfl
     ⟨[("name", "NoCode")], by decide, by decide⟩⟩

theorem join_factor_of_mem (l : List String) (s : String) (h : s ∈ l) :
    ∃ pre post, String.join l = pre ++ s ++ post := by
  obtain ⟨l₁, l₂, rfl⟩ := List.append_of_mem h
  exact ⟨String.join l₁, String.join l₂, by rw [join_append, join_cons, String.append_assoc]⟩

theorem body_factor_of_mem (items : List (String × String))
    (it : String × String) (h : it ∈ items) :
    ∃ pre post, renderBody items = pre ++ entry it ++ post := by
  have hmem : "\n    " ++ entry it ∈ items.map (fun x => "\n    " ++ entry x) :=
    List.mem_map_of_mem _ h
  obtain ⟨pre, post, hj⟩ := join_factor_of_mem _ _ hmem
  refine ⟨pre ++ "\n    ", post ++ "\n", ?_⟩
  rw [renderBody_eq, hj]
  simp [String.append_assoc]

theorem projectRecord_congr (r r' : Record)
    (h₁ : r.lookup "alpha-2" = r'.lookup "alpha-2")
    (h₂ : r.lookup "name" = r'.lookup "name") :
    projectRecord r = projectRecord r' := by
  simp only [projectRecord, getField, h₁, h₂]

theorem projectAll_congr (data data' : List Record)
    (h : List.Forall₂ (fun r r' => r.lookup "alpha-2" = r'.lookup "alpha-2" ∧
      r.lookup "name" = r'.lookup "name") data data') :
    projectAll data = projectAll data' := by
  induction h with
  | nil => rfl
  | cons hpair htail ih =>
    simp only [projectAll, projectRecord_congr _ _ hpair.1 hpair.2, ih]

/-- C5: round-trip.  Every input record's (code, name) pair is among the
rendered pairs and its rendered entry occurs verbatim in the body; every
rendered pair comes from some input record; and two datasets whose records
agree pointwise on the `alpha-2` and `name` keys produce identical output,
so every other key of a record has no effect. -/
theorem gen_cc_round_trip (data : List Record) (h : ValidData data) :
    ∃ items : List (String × String),
      projectAll data = .ok items ∧
      (∀ rec ∈ data, projectValid rec ∈ sortItems items ∧
        ∃ pre post, renderBody (sortItems items)
          = pre ++ entry (projectValid rec) ++ post) ∧
      (∀ it ∈ sortItems items, ∃ rec ∈ data, projectValid rec = it) ∧
      (∀ data' : List Record,
        List.Forall₂ (fun r r' => r.lookup "alpha-2" = r'.lookup "alpha-2" ∧
          r.lookup "name" = r'.lookup "name") data data' →
        gen_cc data = gen_cc data') := by
  refine ⟨data.map projectValid, projectAll_of_valid data h, fun rec hrec => ?_,
    fun it hit => ?_, fun data' hf => ?_⟩
  · have hmem : projectValid rec ∈ sortItems (data.map projectValid) :=
      List.mem_mergeSort.mpr (List.mem_map_of_mem _ hrec)
    exact ⟨hmem, body_factor_of_mem _ _ hmem⟩
  · exact List.mem_map.mp (List.mem_mergeSort.mp hit)
  · simp only [gen_cc, projectAll_congr data data' hf]

theorem gen_cc_round_trip_witness :
    ∃ items : List (String × String),
      projectAll exampleData = .ok items ∧
      (∀ rec ∈ exampleData, projectValid rec ∈ sortItems items ∧
        ∃ pre post, renderBody (sortItems items)
          = pre ++ entry (projectValid rec) ++ post) ∧
      (∀ it ∈ sortItems items, ∃ rec ∈ exampleData, projectValid rec = it) ∧
      (∀ data' : List Record,
        List.Forall₂ (fun r r' => r.lookup "alpha-2" = r'.lookup "alpha-2" ∧
          r.lookup "name" = r'.lookup "name") exampleData data' →
        gen_cc exampleData = gen_cc data') :=
  gen_cc_round_trip exampleData (by decide)

/-- C7: no escaping is applied to the `name` field — whenever a record's
name contains a double-quote character, the name (quote included) is
spliced verbatim, as a contiguous substring, into the emitted output. -/
theorem gen_cc_no_escaping (data : List Record) (rec : Record) (n : String)
    (h : ValidData data) (hrec : rec ∈ data)
    (hn : rec.lookup "name" = some n) (_hq : '\"' ∈ n.data) :
    ∃ out pre post, gen_cc data = .ok out ∧ out = pre ++ n ++ post := by
  have hmem : projectValid rec ∈ sortItems (data.map projectValid) :=
    List.mem_mergeSort.mpr (List.mem_map_of_mem _ hrec)
  obtain ⟨pre, post, hbody⟩ := body_factor_of_mem _ _ hmem
  have hsnd : (projectValid rec).2 = n := by simp [projectValid, hn]
  refine ⟨renderLiteral (sortItems (data.map projectValid)) ++ "\n",
    "\npub static COUNTRY_CODES: [(&'static str, &'static str); "
      ++ toString (sortItems (data.map projectValid)).length ++ "] = ["
      ++ pre ++ ("(\"" ++ (projectValid rec).1 ++ "\", \""),
    ("\"), " ++ post) ++ "];\n" ++ "\n", ?_, ?_⟩
  · simp [gen_cc, projectAll_of_valid data h, bind, Except.bind, pure, Except.pure]
  · rw [renderLiteral, hbody, entry, hsnd]
    simp [String.append_assoc]

theorem gen_cc_no_escaping_witness :
    ∃ out pre post,
      gen_cc [[("alpha-2", "XX"), ("name", "Na\"me")]] = .ok out ∧
      out = pre ++ "Na\"me" ++ post :=
  gen_cc_no_escaping [[("alpha-2", "XX"), ("name", "Na\"me")]]
    [("alpha-2", "XX"), ("name", "Na\"me")] "Na\"me"
    (by decide) (by decide) (by decide) (by decide)

/-! The second model: arbitrary JSON field values, for the claims about
non-string values.  It follows Python's dynamic semantics: `%s` formatting
via `str()`, and the partial `<` used by `sorted` on the keys. -/

/-- A JSON value as `json.loads` produces it.  JSON numbers are modelled as
integers (floating-point literals are outside this embedding); `true`,
`false`, `null` become Python `True`, `False`, `None`; arrays become lists
and objects become dicts (association lists with unique keys, kept in
insertion order). -/
inductive JValue where
  | str (s : String)
  | int (n : Int)
  | bool (b : Bool)
  | null
  | arr (elems : List JValue)
  | obj (fields : List (String × JValue))

/-- An error a run on arbitrary values can raise: `KeyError` from field
access, `TypeError` from an undefined comparison in `sorted`. -/
inductive PyError where
  | keyError (key : String)
  | typeError
deriving DecidableEq

mutual
/-- Python `==` on JSON values: numeric across `bool`/`int` (`True == 1`),
elementwise on lists, key/value-wise on dicts, `False` across the other
type combinations (never an error). -/
def pyEq : JValue → JValue → Bool
  | .str a, .str b => a == b
  | .int m, .int n => m == n
  | .int m, .bool b => m == (if b then 1 else 0)
  | .bool a, .int n => (if a then (1 : Int) else 0) == n
  | .bool a, .bool b => a == b
  | .null, .null => true
  | .arr xs, .arr ys => pyEqList xs ys
  | .obj xs, .obj ys => xs.length == ys.length && pyEqFields xs ys
  | _, _ => false

/-- Python list `==`: same length and elementwise equal. -/
def pyEqList : List JValue → List JValue → Bool
  | [], [] => true
  | x :: xs, y :: ys => pyEq x y && pyEqList xs ys
  | _, _ => false

/-- Python dict `==` on dicts with unique keys: together with the length
check, every key of the left dict maps in the right dict to an equal
value. -/
def pyEqFields : List (String × JValue) → List (String × JValue) → Bool
  | [], _ => true
  | (k, v) :: rest, ys =>
    (match ys.lookup k with
     | some w => pyEq v w
     | none => false) && pyEqFields rest ys
end

/-- Python's numeric view of a value: `bool` is a subclass of `int`
(`True` counts as 1, `False` as 0); other values are not numbers. -/
def numVal : JValue → Option Int
  | .int n => some n
  | .bool b => some (if b then 1 else 0)
  | _ => none

mutual
/-- Python `<` on JSON values, raising TypeError on incomparable operands:
strings compare by code point, lists lexicographically (`==` to skip equal
prefixes, then `<`), numbers numerically; `None`, dicts and mixed-type
pairs are unorderable. -/
def pyLt : JValue → JValue → Except PyError Bool
  | .str a, .str b => .ok (decide (a.data < b.data))
  | .arr xs, .arr ys => pyLtList xs ys
  | a, b =>
    match numVal a, numVal b with
    | some m, some n => .ok (decide (m < n))
    | _, _ => .error .typeError

/-- Python list `<`: skip the longest common prefix under `==`, then
compare the first differing elements with `<`; a strict prefix is
smaller. -/
def pyLtList : List JValue → List JValue → Except PyError Bool
  | [], [] => .ok false
  | [], _ :: _ => .ok true
  | _ :: _, [] => .ok false
  | x :: xs, y :: ys => if pyEq x y then pyLtList xs ys else pyLt x y
end

/-- The `\xNN` escape `repr` uses for an unprintable ASCII character. -/
def asciiHexEscape (n : Nat) : String :=
  "\\x" ++ String.mk [Nat.digitChar (n / 16), Nat.digitChar (n % 16)]

/-- One character of a Python string `repr`, given the enclosing quote:
the quote and the backslash get a backslash, newline, carriage return and
tab their mnemonic escapes, other ASCII control characters `\xNN`. -/
def pyReprChar (quote : Char) (c : Char) : String :=
  if c = '\\' ∨ c = quote then String.mk ['\\', c]
  else if c = '\n' then "\\n"
  else if c = '\r' then "\\r"
  else if c = '\t' then "\\t"
  else if c.toNat < 32 ∨ c.toNat = 127 then asciiHexEscape c.toNat
  else String.singleton c

/-- Python `repr` of a string: single-quoted, unless the text holds a
single quote and no double quote, then double-quoted.  Non-ASCII
characters are treated as printable (Python additionally escapes the
unprintable ones among them, a Unicode-table distinction this embedding
does not draw). -/
def pyReprStr (s : String) : String :=
  let quote := if s.data.contains '\'' ∧ ¬ s.data.contains '\"' then '\"' else '\''
  String.singleton quote ++ String.join (s.data.map (pyReprChar quote))
    ++ String.singleton quote

mutual
/-- Python `str()` of a JSON value, as `%s` formatting applies it: strings
pass through unchanged, every other value prints as its `repr`. -/
def pyStr : JValue → String
  | .str s => s
  | v => pyRepr v

/-- Python `repr` of a JSON value. -/
def pyRepr : JValue → String
  | .str s => pyReprStr s
  | .int n => toString n
  | .bool b => if b then "True" else "False"
  | .null => "None"
  | .arr xs => "[" ++ pyReprList xs ++ "]"
  | .obj fields => "\x7b" ++ pyReprFields fields ++ "\x7d"

/-- The comma-separated element reprs of a list. -/
def pyReprList : List JValue → String
  | [] => ""
  | [x] => pyRepr x
  | x :: xs => pyRepr x ++ ", " ++ pyReprList xs

/-- The comma-separated `key: value` reprs of a dict. -/
def pyReprFields : List (String × JValue) → String
  | [] => ""
  | [(k, v)] => pyReprStr k ++ ": " ++ pyRepr v
  | (k, v) :: rest => pyReprStr k ++ ": " ++ pyRepr v ++ ", " ++ pyReprFields rest
end

/-- A parsed JSON object with arbitrary values (compare `Record`). -/
abbrev JRecord := List (String × JValue)

/-- `rec[key]` on such an object. -/
def getFieldJ (rec : JRecord) (key : String) : Except PyError JValue :=
  match rec.lookup key with
  | some v => .ok v
  | none => .error (.keyError key)

/-- The projection lambda over arbitrary values. -/
def projectRecordJ (rec : JRecord) : Except PyError (JValue × JValue) := do
  let code ← getFieldJ rec "alpha-2"
  let name ← getFieldJ rec "name"
  pure (code, name)

/-- `list(map(...))` over arbitrary values. -/
def projectAllJ : List JRecord → Except PyError (List (JValue × JValue))
  | [] => .ok []
  | rec :: rest => do
    let item ← projectRecordJ rec
    let items ← projectAllJ rest
    pure (item :: items)

/-- Insert one element into the already sorted prefix: it goes in front of
the first strictly greater key — after every earlier element with an equal
key — so the insertion is stable and ascending; it raises TypeError
exactly when a key comparison it performs does. -/
def pyInsertSorted (x : JValue × JValue) :
    List (JValue × JValue) → Except PyError (List (JValue × JValue))
  | [] => .ok [x]
  | y :: ys => do
    let lt ← pyLt x.1 y.1
    if lt then .ok (x :: y :: ys)
    else do
      let rest ← pyInsertSorted x ys
      .ok (y :: rest)

/-- Fold the stable insertion over the input, left to right. -/
def pySortedAux : List (JValue × JValue) → List (JValue × JValue) →
    Except PyError (List (JValue × JValue))
  | acc, [] => .ok acc
  | acc, x :: xs => do
    let acc' ← pyInsertSorted x acc
    pySortedAux acc' xs

/-- `sorted(items, key=lambda item: item[0])` over arbitrary values.
CPython's Timsort compares keys with `<` and raises TypeError at the first
incomparable pair it happens to compare; this model is a stable insertion
sort in the same error monad.  On totally comparable keys it returns what
any stable sort — CPython's included — returns, and raises on none; on a
two-element list it performs exactly CPython's single comparison
`key(items[1]) < key(items[0])`.  Only the set of comparisons Timsort
attempts on longer inputs with incomparable keys is not modelled. -/
def pySortedJ (items : List (JValue × JValue)) :
    Except PyError (List (JValue × JValue)) :=
  pySortedAux [] items

/-- One rendered entry over arbitrary values:
`"(\"%s\", \"%s\"), " % item` formats each component with `str()`. -/
def entryJ (item : JValue × JValue) : String :=
  "(\"" ++ pyStr item.1 ++ "\", \"" ++ pyStr item.2 ++ "\"), "

/-- The loop's appended pieces, over arbitrary values. -/
def bodyPartsJ (items : List (JValue × JValue)) : List String :=
  items.enum.map (fun p => (if p.1 % 1 == 0 then "\n    " else "") ++ entryJ p.2)

/-- The final `body`, over arbitrary values. -/
def renderBodyJ (items : List (JValue × JValue)) : String :=
  String.join (bodyPartsJ items) ++ "\n"

/-- The final `code`, over arbitrary values. -/
def renderLiteralJ (items : List (JValue × JValue)) : String :=
  "\npub static COUNTRY_CODES: [(&'static str, &'static str); "
    ++ toString items.length ++ "] = [" ++ renderBodyJ items ++ "];\n"

/-- `gen_cc` over arbitrary field values, returning the text written to
standard output. -/
def gen_cc_j (data : List JRecord) : Except PyError String := do
  let items ← projectAllJ data
  let sortedItems ← pySortedJ items
  pure (renderLiteralJ sortedItems ++ "\n")

/-- All sort keys in the list are Python strings. -/
def StrKeyed (items : List (JValue × JValue)) : Prop :=
  ∀ it ∈ items, ∃ c : String, it.1 = JValue.str c

theorem pyLt_str (a b : String) :
    pyLt (JValue.str a) (JValue.str b) = .ok (decide (a.data < b.data)) := by
  rw [pyLt]

theorem pyInsertSorted_ok (x : JValue × JValue) (hx : ∃ c, x.1 = JValue.str c)
    (acc : List (JValue × JValue)) (hacc : StrKeyed acc) :
    ∃ out, pyInsertSorted x acc = .ok out ∧ StrKeyed out := by
  induction acc with
  | nil =>
    refine ⟨[x], rfl, fun it hit => ?_⟩
    rw [List.mem_singleton] at hit
    exact hit ▸ hx
  | cons y ys ih =>
    obtain ⟨c, hc⟩ := hx
    obtain ⟨d, hd⟩ := hacc y (List.mem_cons_self ..)
    have hys : StrKeyed ys := fun it hit => hacc it (List.mem_cons_of_mem _ hit)
    obtain ⟨out, hout, hsk⟩ := ih hys
    by_cases hlt : (decide (c.data < d.data) : Bool)
    · refine ⟨x :: y :: ys, ?_, fun it hit => ?_⟩
      · simp [pyInsertSorted, hc, hd, pyLt_str, hlt, bind, Except.bind]
      · rcases List.mem_cons.mp hit with h | h
        · exact h ▸ ⟨c, hc⟩
        · exact hacc it h
    · refine ⟨y :: out, ?_, fun it hit => ?_⟩
      · simp [pyInsertSorted, hc, hd, pyLt_str, hlt, hout, bind, Except.bind]
      · rcases List.mem_cons.mp hit with h | h
        · exact h ▸ ⟨d, hd⟩
        · exact hsk it h

theorem pySortedAux_ok (rest : List (JValue × JValue)) (hrest : StrKeyed rest)
    (acc : List (JValue × JValue)) (hacc : StrKeyed acc) :
    ∃ out, pySortedAux acc rest = .ok out ∧ StrKeyed out := by
  induction rest generalizing acc with
  | nil => exact ⟨acc, rfl, hacc⟩
  | cons x xs ih =>
    have hx : ∃ c, x.1 = JValue.str c := hrest x (List.mem_cons_self ..)
    have hxs : StrKeyed xs := fun it hit => hrest it (List.mem_cons_of_mem _ hit)
    obtain ⟨acc', hacc', hsk'⟩ := pyInsertSorted_ok x hx acc hacc
    obtain ⟨out, hout, hsk⟩ := ih hxs acc' hsk'
    exact ⟨out, by simp [pySortedAux, hacc', hout, bind, Except.bind], hsk⟩

theorem projectAllJ_ok (data : List JRecord)
    (h : ∀ rec ∈ data, (∃ c : String, rec.lookup "alpha-2" = some (.str c)) ∧
      (rec.lookup "name").isSome) :
    ∃ items, projectAllJ data = .ok items ∧ StrKeyed items := by
  induction data with
  | nil => exact ⟨[], rfl, fun it hit => absurd hit (List.not_mem_nil it)⟩
  | cons rec rest ih =>
    obtain ⟨⟨c, hc⟩, hname⟩ := h rec (List.mem_cons_self ..)
    obtain ⟨n, hn⟩ := Option.isSome_iff_exists.mp hname
    obtain ⟨items, hitems, hsk⟩ :=
      ih (fun r hr => h r (List.mem_cons_of_mem _ hr))
    refine ⟨(JValue.str c, n) :: items, ?_, fun it hit => ?_⟩
    · simp [projectAllJ, projectRecordJ, getFieldJ, hc, hn, hitems,
        bind, Except.bind, pure, Except.pure]
    · rcases List.mem_cons.mp hit with h' | h'
      · exact ⟨c, by rw [h']⟩
      · exact hsk it h'

/-- C10 counterexample: a dataset whose records all carry both required
keys can still raise.  With `null` as both `alpha-2` values, the single
key comparison the sort performs is `None < None` — a TypeError — so the
claim that no error is raised as long as both keys are present is false
on the code. -/
theorem gen_cc_j_nonstring_counterexample :
    gen_cc_j [[("alpha-2", JValue.null), ("name", JValue.str "A")],
              [("alpha-2", JValue.null), ("name", JValue.str "B")]]
      = .error .typeError := by rfl

/-- C10 (amended): the generator performs no validation of field values —
an `alpha-2` value that is a string of any length or case, and a `name`
value that is any JSON value whatsoever (number, null, list, object),
raise no error when both keys are present; the values are converted to
their `str()` form by the `%s` formatter and emitted verbatim.  (A
non-string `alpha-2` is not validated either — field access and formatting
never reject it — but it can make the sort's key comparison raise
TypeError, as the counterexample shows.) -/
theorem gen_cc_j_no_validation (data : List JRecord)
    (h : ∀ rec ∈ data, (∃ c : String, rec.lookup "alpha-2" = some (.str c)) ∧
      (rec.lookup "name").isSome) :
    ∃ items sortedItems, projectAllJ data = .ok items ∧
      pySortedJ items = .ok sortedItems ∧
      gen_cc_j data = .ok (renderLiteralJ sortedItems ++ "\n") := by
  obtain ⟨items, hitems, hsk⟩ := projectAllJ_ok data h
  obtain ⟨sortedItems, hsorted, _⟩ :=
    pySortedAux_ok items hsk [] (fun it hit => absurd hit (List.not_mem_nil it))
  refine ⟨items, sortedItems, hitems, hsorted, ?_⟩
  simp [gen_cc_j, hitems, pySortedJ, hsorted, bind, Except.bind, pure, Except.pure]

theorem gen_cc_j_no_validation_witness :
    ∃ items sortedItems,
      projectAllJ [[("alpha-2", JValue.str "usa"), ("name", JValue.int 42)]]
        = .ok items ∧
      pySortedJ items = .ok sortedItems ∧
      gen_cc_j [[("alpha-2", JValue.str "usa"), ("name", JValue.int 42)]]
        = .ok (renderLiteralJ sortedItems ++ "\n") :=
  gen_cc_j_no_validation _ (by
    intro rec hrec
    rw [List.mem_singleton] at hrec
    subst hrec
    exact ⟨⟨"usa", rfl⟩, rfl⟩)
